import Mathlib

/-!
Verification of the report-formatting subsystem (format.cc and its
collaborator wrapper expr.cc) of the ledger reporting layer: the
width-aware truncation/elision algorithm, the template element compiler,
the renderer, the account-display decision procedure and the per-record
groupers, embedded shallowly over lists of characters.

Strings are embedded as `List Char`; the C++ `unsigned int` counter of
`format_t::truncate` is embedded as a natural number reduced mod 2^32
exactly where the source performs unsigned arithmetic.  Regions of the
source that are disabled by `#if 0` are embedded as the compiler sees
them: the disabled statements are absent.
-/

namespace Ledger

/-- Modulus of the C++ `unsigned int` arithmetic used by `format_t::truncate`. -/
def UINT_MOD : Nat := 4294967296

/-- Unsigned subtraction `a - b` as C++ computes it on `unsigned int`
(reduction mod 2^32). -/
def usub (a b : Nat) : Nat := (a + (UINT_MOD - b % UINT_MOD)) % UINT_MOD

/-- Elision styles of `format_t::elision_style_t`.  The process-wide default
is `ABBREVIATE` (format.cc line 9). -/
inductive ElisionStyle where
  | TRUNCATE_LEADING
  | TRUNCATE_MIDDLE
  | TRUNCATE_TRAILING
  | ABBREVIATE
  deriving DecidableEq, Repr

/-- Writing `".."` over the first two cells of the buffer, as the
`buf[0] = '.'; buf[1] = '.';` statements of `format_t::truncate` do. -/
def dotDot (l : List Char) : List Char := '.' :: '.' :: l.drop 2

/-- The ABBREVIATE segment loop of `format_t::truncate` (format.cc lines
56-74): `res` is the `result` string being accumulated, `n` the C++
`unsigned int newlen` counter.  Every segment except the last is replaced
by its first `abbrevLen` characters while `n` still exceeds the width;
`n` is updated by the unsigned subtraction `newlen -= (*i).length() -
abbrev_length`. -/
def abbrevParts (abbrevLen width : Nat) :
    List (List Char) → List Char × Nat → List Char × Nat
  | [], (res, n) => (res, n)
  | [last], (res, n) => (res ++ last, n)
  | seg :: rest, (res, n) =>
      if n > width then
        abbrevParts abbrevLen width rest
          (res ++ seg.take abbrevLen ++ [':'], usub n (usub seg.length abbrevLen))
      else
        abbrevParts abbrevLen width rest (res ++ seg ++ [':'], n)

/-- Embedding of `format_t::truncate` (format.cc lines 15-99).  `style` and
`abbrevLen` stand for the process-wide settings `elision_style` and
`abbrev_length`; `len` is the C++ `unsigned int` copy of the string
length.  The `buf[width] = '\x27'`-style terminator writes are reflected by
taking exactly the characters the returned `std::string` reads up to the
first NUL. -/
def truncate (style : ElisionStyle) (abbrevLen : Nat) (str : List Char)
    (width : Nat) (is_account : Bool) : List Char :=
  let len := str.length % UINT_MOD
  if len ≤ width then str
  else
    match style with
    | .TRUNCATE_LEADING => dotDot (str.drop (len - width))
    | .TRUNCATE_MIDDLE =>
        ((str.take (width / 2) ++ str.drop (len - (width / 2 + width % 2))).set
            (width / 2 - 1) '.').set (width / 2) '.'
    | .TRUNCATE_TRAILING => str.take (width - 2) ++ ['.', '.']
    | .ABBREVIATE =>
        if is_account then
          let parts := str.splitOn ':'
          let r := abbrevParts abbrevLen width parts ([], len)
          if r.2 > width then dotDot (r.1.drop (r.1.length - width))
          else r.1.take width
        else str.take (width - 2) ++ ['.', '.']

/-- Segment walk of the ABBREVIATE policy as the specification words it:
walking left to right, every segment except the last is replaced by its
first `abbrevLen` characters while the running length `L` still exceeds
the width, and `L` is reduced by the number of characters removed. -/
def abbrevSegsSpec (abbrevLen w : Nat) : List (List Char) → Nat → List (List Char)
  | [], _ => []
  | [last], _ => [last]
  | seg :: rest, L =>
      if L > w then
        seg.take abbrevLen :: abbrevSegsSpec abbrevLen w rest (L - (seg.length - abbrevLen))
      else seg :: abbrevSegsSpec abbrevLen w rest L

/-- The ABBREVIATE elision policy as the specification words it: split on
`':'`, abbreviate non-final segments while the accumulated length still
exceeds the width, never abbreviate the final segment, and
leading-truncate the joined result if it still exceeds the width. -/
def truncateAbbrevSpec (abbrevLen : Nat) (s : List Char) (w : Nat) : List Char :=
  if s.length ≤ w then s
  else
    let r := List.intercalate [':'] (abbrevSegsSpec abbrevLen w (s.splitOn ':') s.length)
    if r.length > w then dotDot (r.drop (r.length - w)) else r

/-- Account nodes as the reporting layer reads them: a name, the presence
of report-pass extra data (`account_has_xdata`), the `ACCOUNT_DISPLAYED`
bit of that data's `dflags`, an optional parent back-pointer and the
children collection. -/
inductive Account where
  | node (name : List Char) (has_xdata : Bool) (displayed : Bool)
      (parent : Option Account) (children : List Account)

/-- Name of an account node. -/
def Account.name : Account → List Char
  | .node n _ _ _ _ => n

/-- Whether the account carries report-pass extra data (`account_has_xdata`). -/
def Account.has_xdata : Account → Bool
  | .node _ h _ _ _ => h

/-- The `ACCOUNT_DISPLAYED` bit of the account's xdata `dflags`. -/
def Account.displayed : Account → Bool
  | .node _ _ d _ _ => d

/-- Parent back-pointer of an account node. -/
def Account.parent : Account → Option Account
  | .node _ _ _ p _ => p

/-- Loop of `partial_account_name` (format.cc lines 105-116): walk upward
while the node exists and has a parent, stop at a node already displayed,
and prepend each visited node's name to the accumulated name. -/
def panLoop : Account → List Char → List Char
  | .node _ _ _ none _, name => name
  | .node nm hx df (some p) _, name =>
      if hx && df then name
      else panLoop p (if name = [] then nm else nm ++ ':' :: name)

/-- Embedding of `partial_account_name` (format.cc lines 101-119). -/
def partial_account_name (account : Account) : List Char :=
  panLoop account []

/-- Nodes whose loop body `partial_account_name` can reach: the account and
its ancestors in upward order, stopping before the root (the loop guard
`acct && acct->parent` excludes any node without a parent). -/
def nonRootChain : Account → List Account
  | .node _ _ _ none _ => []
  | .node nm hx df (some p) ch => .node nm hx df (some p) ch :: nonRootChain p

/-- The result `partial_account_name` is claimed to produce: the
`':'`-joined names of the walked nodes, outermost ancestor first, cut at
the first node whose `ACCOUNT_DISPLAYED` flag is set. -/
def partialNameSpec (account : Account) : List Char :=
  List.intercalate [':']
    (((nonRootChain account).takeWhile fun x => !(x.has_xdata && x.displayed)).map
        Account.name).reverse

/-- Height of the parent chain of an account node, used to drive
inductions over the upward walk. -/
def depth : Account → Nat
  | .node _ _ _ none _ => 0
  | .node _ _ _ (some p) _ => depth p + 1

/-- Embedding of `disp_subaccounts_p` (format.cc lines 871-909) as
compiled: the child-total comparison loop is disabled by `#if 0`, so
`display` remains `false` and `to_show` remains null whatever the account
and predicate. -/
def disp_subaccounts_p (_account : Account)
    (_disp_pred : Option (Account → Bool)) : Bool × Option Account :=
  (false, none)

/-- Embedding of `display_account` (format.cc lines 911-931): an account
already carrying the displayed flag is never displayed again; otherwise
the subaccount decision is consulted and finally the predicate gate
`! account_to_show && (! disp_pred || (*disp_pred)(account))`. -/
def display_account (account : Account)
    (disp_pred : Option (Account → Bool)) : Bool :=
  if account.has_xdata && account.displayed then false
  else
    let r := disp_subaccounts_p account disp_pred
    if r.1 then true
    else
      r.2.isNone &&
        (match disp_pred with
         | none => true
         | some p => p account)

/-- Directive kinds of `element_t::kind_t`, as used by
`format_t::parse_elements` and `format_t::format`. -/
inductive ElementKind where
  | STRING
  | VALUE_EXPR
  | DATE_STRING
  | COMPLETE_DATE_STRING
  | SOURCE
  | ENTRY_BEG_POS
  | ENTRY_BEG_LINE
  | ENTRY_END_POS
  | ENTRY_END_LINE
  | XACT_BEG_POS
  | XACT_BEG_LINE
  | XACT_END_POS
  | XACT_END_LINE
  | CLEARED
  | ENTRY_CLEARED
  | CODE
  | PAYEE
  | OPT_ACCOUNT
  | ACCOUNT_NAME
  | ACCOUNT_FULLNAME
  | AMOUNT
  | OPT_AMOUNT
  | TOTAL
  | NOTE
  | OPT_NOTE
  | SPACER
  | DEPTH_SPACER
  deriving DecidableEq, Repr

/-- Modelled from the spec: a compiled template directive (`element_t`,
declared in the header format.h, which is not among the source files).
The fields are the ones format.cc reads and writes: kind, literal or raw
text, the `-` and `!` flags, and the two widths.  Spec section 9 records
that a directive whose selector matches no case is left as a blank field,
so the default kind is a literal with empty text; widths default to 0 and
flags to clear.  `val_expr` keeps the raw sub-expression text that the
source hands to the external expression evaluator. -/
structure Element where
  type : ElementKind := .STRING
  chars : List Char := []
  val_expr : List Char := []
  alignLeft : Bool := false
  highlight : Bool := false
  min_width : Nat := 0
  max_width : Nat := 0
  deriving DecidableEq, Repr

/-- Modelled from the spec: the process-wide date output format string
(`output_time_format`, defined outside the source files).  Its value is
irrelevant to the claims; only the fact that `%d` and `%D` copy it into
the directive matters. -/
def output_time_format : List Char := "%Y/%m/%d".toList

/-- Flag run of `parse_elements` (format.cc lines 168-178): any number of
`-` (left align) and `!` (highlight) markers. -/
def parseFlags : Bool → Bool → List Char → Bool × Bool × List Char
  | left, high, c :: rest =>
      if c = '-' then parseFlags true high rest
      else if c = '!' then parseFlags left true rest
      else (left, high, c :: rest)
  | left, high, [] => (left, high, [])

/-- Digit run of `parse_elements` (format.cc lines 180-184):
`num = num * 10 + (*p - 48)`. -/
def parseNum : Nat → List Char → Nat × List Char
  | num, c :: rest =>
      if c.isDigit then parseNum (num * 10 + (c.toNat - 48)) rest
      else (num, c :: rest)
  | num, [] => (num, [])

/-- Delimiter scan of `parse_elements` (format.cc lines 207-215 and
226-236): advance until the matching close delimiter, tracking nesting
depth; `some (inner, rest)` holds the raw inner text and the input after
the close delimiter, `none` means the input ended first. -/
def scanDelim (openc closec : Char) : List Char → Nat → List Char →
    Option (List Char × List Char)
  | [], _, _ => none
  | c :: rest, depth, acc =>
      if c = closec then
        if depth = 1 then some (acc.reverse, rest)
        else scanDelim openc closec rest (depth - 1) (c :: acc)
      else if c = openc then scanDelim openc closec rest (depth + 1) (c :: acc)
      else scanDelim openc closec rest depth (c :: acc)

/-- Width parse of `parse_elements` (format.cc lines 180-197): a digit run
giving the minimum width, then optionally a `.` and a second digit run
giving the maximum width; when the maximum is parsed and the minimum was
written as zero or omitted, the minimum is set to the maximum.  Returns
((min_width, max_width), rest). -/
def parseWidths (cs : List Char) : (Nat × Nat) × List Char :=
  let n1 := parseNum 0 cs
  match n1.2 with
  | '.' :: r2 =>
      let n2 := parseNum 0 r2
      (((if n1.1 = 0 then n2.1 else n1.1), n2.1), n2.2)
  | r2 => ((n1.1, 0), r2)

/-- Selector switch of `parse_elements` (format.cc lines 199-284), applied
to a directive whose flags and widths are already in `base`.  An empty
remainder models the C++ scan reaching the end of the format string
inside the directive; a selector matching no case leaves the directive
as the blank `base`. -/
def parseSelector (base : Element) : List Char → Except String (Element × List Char)
  | [] => .ok (base, [])
  | '%' :: rest => .ok ({ base with type := .STRING, chars := ['%'] }, rest)
  | '(' :: rest =>
      (match scanDelim '(' ')' rest 1 [] with
       | none => .error "Missing ')'"
       | some ir => .ok ({ base with type := .VALUE_EXPR, val_expr := ir.1 }, ir.2))
  | '[' :: rest =>
      (match scanDelim '[' ']' rest 1 [] with
       | none => .error "Missing ']'"
       | some ir => .ok ({ base with type := .DATE_STRING, chars := ir.1 }, ir.2))
  | ['x'] => .ok (base, [])
  | 'x' :: 'B' :: rest2 => .ok ({ base with type := .XACT_BEG_POS }, rest2)
  | 'x' :: 'b' :: rest2 => .ok ({ base with type := .XACT_BEG_LINE }, rest2)
  | 'x' :: 'E' :: rest2 => .ok ({ base with type := .XACT_END_POS }, rest2)
  | 'x' :: 'e' :: rest2 => .ok ({ base with type := .XACT_END_LINE }, rest2)
  | 'x' :: _ :: rest2 => .ok (base, rest2)
  | 'd' :: rest =>
      .ok ({ base with type := .COMPLETE_DATE_STRING, chars := output_time_format }, rest)
  | 'D' :: rest =>
      .ok ({ base with type := .DATE_STRING, chars := output_time_format }, rest)
  | 'S' :: rest => .ok ({ base with type := .SOURCE }, rest)
  | 'B' :: rest => .ok ({ base with type := .ENTRY_BEG_POS }, rest)
  | 'b' :: rest => .ok ({ base with type := .ENTRY_BEG_LINE }, rest)
  | 'E' :: rest => .ok ({ base with type := .ENTRY_END_POS }, rest)
  | 'e' :: rest => .ok ({ base with type := .ENTRY_END_LINE }, rest)
  | 'X' :: rest => .ok ({ base with type := .CLEARED }, rest)
  | 'Y' :: rest => .ok ({ base with type := .ENTRY_CLEARED }, rest)
  | 'C' :: rest => .ok ({ base with type := .CODE }, rest)
  | 'P' :: rest => .ok ({ base with type := .PAYEE }, rest)
  | 'W' :: rest => .ok ({ base with type := .OPT_ACCOUNT }, rest)
  | 'a' :: rest => .ok ({ base with type := .ACCOUNT_NAME }, rest)
  | 'A' :: rest => .ok ({ base with type := .ACCOUNT_FULLNAME }, rest)
  | 't' :: rest => .ok ({ base with type := .AMOUNT }, rest)
  | 'o' :: rest => .ok ({ base with type := .OPT_AMOUNT }, rest)
  | 'T' :: rest => .ok ({ base with type := .TOTAL }, rest)
  | 'N' :: rest => .ok ({ base with type := .NOTE }, rest)
  | 'n' :: rest => .ok ({ base with type := .OPT_NOTE }, rest)
  | '|' :: rest => .ok ({ base with type := .SPACER }, rest)
  | '_' :: rest => .ok ({ base with type := .DEPTH_SPACER }, rest)
  | _ :: rest => .ok (base, rest)

/-- Directive parse of `parse_elements` after a `%` (format.cc lines
167-284): flag run, widths, then the selector switch. -/
def parseDirective (cs : List Char) : Except String (Element × List Char) :=
  let f := parseFlags false false cs
  let w := parseWidths f.2.2
  parseSelector
    { alignLeft := f.1, highlight := f.2.1, min_width := w.1.1, max_width := w.1.2 } w.2

/-- Escape mapping of `parse_elements` (format.cc lines 156-163); any other
escaped character leaves the directive's text empty. -/
def escapeChar (c : Char) : List Char :=
  if c = 'b' then ['\x08']
  else if c = 'f' then ['\x0c']
  else if c = 'n' then ['\n']
  else if c = 'r' then ['\r']
  else if c = 't' then ['\t']
  else if c = 'v' then ['\x0b']
  else []

/-- Flush of the pending literal buffer as a STRING element (format.cc
lines 144-151). -/
def flushString (buf : List Char) (acc : List Element) : List Element :=
  if buf = [] then acc else acc ++ [{ type := .STRING, chars := buf }]

/-- Decimal digit run for building concrete and general width-directive
format strings: `natDigitsAux` prints `n` in base 10 (the fuel only
drives the structural recursion and any fuel above `n` suffices). -/
def natDigitsAux : Nat → Nat → List Char
  | 0, _ => []
  | fuel + 1, n =>
      if n < 10 then [Char.ofNat (48 + n)]
      else natDigitsAux fuel (n / 10) ++ [Char.ofNat (48 + n % 10)]

def natDigits (n : Nat) : List Char := natDigitsAux (n + 1) n

/-- Main scan loop of `format_t::parse_elements` (format.cc lines 130-298):
ordinary characters accumulate in the literal buffer `buf`; a `%` or `\x5c`
flushes the buffer as a STRING element and parses an escape or a
directive.  At the end of input the remaining buffer is flushed.  The
`fuel` argument only drives the structural recursion: each step consumes
at least one input character, so with fuel exceeding the input length the
fuel-exhaustion branch is unreachable (`parseElementsGo_fuel` below shows
any sufficient fuel gives the same result). -/
def parseElementsGo : Nat → List Char → List Element → List Char →
    Except String (List Element)
  | _, buf, acc, [] => .ok (flushString buf acc)
  | 0, buf, acc, _ :: _ => .ok (flushString buf acc)
  | fuel + 1, buf, acc, c :: cs =>
      if c ≠ '%' ∧ c ≠ '\\' then parseElementsGo fuel (buf ++ [c]) acc cs
      else
        let acc1 := flushString buf acc
        if c = '\\' then
          match cs with
          | [] => .ok (acc1 ++ [{ type := .STRING }])
          | e :: cs2 =>
              parseElementsGo fuel [] (acc1 ++ [{ type := .STRING, chars := escapeChar e }]) cs2
        else
          match parseDirective cs with
          | .error msg => .error msg
          | .ok er => parseElementsGo fuel [] (acc1 ++ [er.1]) er.2

/-- Embedding of `format_t::parse_elements` (format.cc lines 121-301). -/
def parse_elements (fmt : List Char) : Except String (List Element) :=
  parseElementsGo (fmt.length + 1) [] [] fmt

/-- One selector step of the spec's template grammar (section 4.1),
reduced to what decides delimiter matching: a `(` or `[` selector seeks
its matching close delimiter with nesting tracked and is unmatched
exactly when the input ends first; every other selector (including a
missing one at end of input and the two-character `x` form) consumes its
characters without any error. -/
def selectorRest : List Char → Option (List Char)
  | [] => some []
  | '(' :: rest => (scanDelim '(' ')' rest 1 []).map Prod.snd
  | '[' :: rest => (scanDelim '[' ']' rest 1 []).map Prod.snd
  | 'x' :: [] => some []
  | 'x' :: _ :: rest2 => some rest2
  | _ :: rest => some rest

/-- One directive of the spec's grammar after its `%`: the flag run and
the optional widths are skipped, then the selector step decides whether
a delimiter is unmatched. -/
def directiveRest (cs : List Char) : Option (List Char) :=
  selectorRest (parseWidths (parseFlags false false cs).2.2).2

/-- The spec's left-to-right grammar walk carrying only delimiter
matching: literal text and escapes never fail, and a directive fails
exactly when its selector's delimiter is unmatched.  Fuel as in
`parseElementsGo`. -/
def unmatchedGo : Nat → List Char → Bool
  | _, [] => false
  | 0, _ :: _ => false
  | fuel + 1, c :: cs =>
      if c ≠ '%' ∧ c ≠ '\\' then unmatchedGo fuel cs
      else if c = '\\' then
        match cs with
        | [] => false
        | _ :: cs2 => unmatchedGo fuel cs2
      else
        match directiveRest cs with
        | none => true
        | some rest => unmatchedGo fuel rest

/-- Whether a template string contains an unmatched delimiter: some `%(`
or `%[` group lacks its matching close delimiter before the input ends,
per the spec's grammar walk. -/
def hasUnmatchedDelim (fmt : List Char) : Bool :=
  unmatchedGo (fmt.length + 1) fmt

/-- Rendering context (`details_t`): the entry, transaction and account
pieces may each be absent.  The compiled `format_t::format` never reads
them (every case that would is disabled by `#if 0`), so only their
presence is modelled. -/
structure Details where
  hasEntry : Bool := false
  hasXact : Bool := false
  hasAccount : Bool := false
  deriving DecidableEq, Repr

/-- Stream padding of one element: the `out.width(min_width)` plus
`std::left`/`std::right` setup of format.cc lines 330-336 applied to the
element's text. -/
def padElement (e : Element) (text : List Char) : List Char :=
  if text.length < e.min_width then
    if e.alignLeft then text ++ List.replicate (e.min_width - text.length) ' '
    else List.replicate (e.min_width - text.length) ' ' ++ text
  else text

/-- Evaluation of one element by `format_t::format` (format.cc lines
323-763) as compiled: every case except STRING is disabled by `#if 0`, so
any other kind reaches the `default: assert(false)` branch, embedded as
`none`.  A STRING element is padded to its minimum width and then cut to
its maximum width (`temp.erase(elem->max_width)`). -/
def formatElement (e : Element) (_d : Details) : Option (List Char) :=
  match e.type with
  | .STRING =>
      let temp := padElement e e.chars
      some (if 0 < e.max_width ∧ e.max_width < temp.length then temp.take e.max_width else temp)
  | _ => none

/-- Embedding of `format_t::format`: elements are evaluated in order and
their texts appended to the output stream; reaching the assertion makes
the whole rendering undefined (`none`). -/
def format : List Element → Details → Option (List Char)
  | [], _ => some []
  | e :: es, d =>
      match formatElement e d, format es d with
      | some t, some r => some (t ++ r)
      | _, _ => none

/-- Transactions as the transaction grouper reads them: the identity of the
owning entry and the transaction's date. -/
structure Transaction where
  entry : Nat
  date : Nat
  deriving DecidableEq, Repr

/-- First occurrence of the literal marker `%/` (the `std::strstr(f, "%/")`
of format.cc line 773): `some (before, after)` splits around it. -/
def findMarker : List Char → Option (List Char × List Char)
  | '%' :: '/' :: rest => some ([], rest)
  | c :: rest => (findMarker rest).map fun pr => (c :: pr.1, pr.2)
  | [] => none

/-- State of the `format_transactions` visitor: the two sub-template
format strings and the last-seen entry and transaction (format.cc lines
766-780). -/
structure FormatTransactions where
  first_line_format : List Char
  next_lines_format : List Char
  last_entry : Option Nat := none
  last_xact : Option Transaction := none
  output : List Char := []
  deriving DecidableEq, Repr

/-- Constructor of `format_transactions` (format.cc lines 766-780): the
format string is split on the first `%/` marker into the first-line and
continuation sub-templates; without a marker both are the whole string. -/
def format_transactions_init (format : List Char) : FormatTransactions :=
  match findMarker format with
  | some pr => { first_line_format := pr.1, next_lines_format := pr.2 }
  | none => { first_line_format := format, next_lines_format := format }

/-- Embedding of `format_transactions::operator()` (format.cc lines
782-802) as compiled: its entire body is disabled by `#if 0`, so the call
renders nothing, marks nothing and leaves the state unchanged. -/
def format_transactions_step (st : FormatTransactions) (_xact : Transaction) :
    FormatTransactions :=
  st

deriving instance DecidableEq for Except

/-- The input remaining after the flag run is a sublist of the input. -/
theorem parseFlags_sublist (l h : Bool) (cs : List Char) :
    List.Sublist (parseFlags l h cs).2.2 cs := by
  induction cs generalizing l h with
  | nil => simp [parseFlags]
  | cons c rest ih =>
      unfold parseFlags
      by_cases h1 : c = '-'
      · simpa [h1] using (ih true h).cons c
      · by_cases h2 : c = '!'
        · simpa [h1, h2] using (ih l true).cons c
        · simp [h1, h2]

/-- The input remaining after the digit run is a sublist of the input. -/
theorem parseNum_sublist (n : Nat) (cs : List Char) :
    List.Sublist (parseNum n cs).2 cs := by
  induction cs generalizing n with
  | nil => simp [parseNum]
  | cons c rest ih =>
      unfold parseNum
      by_cases h1 : c.isDigit
      · simpa [h1] using (ih (n * 10 + (c.toNat - 48))).cons c
      · simp [h1]

/-- The input remaining after a successful delimiter scan is a sublist of
the input. -/
theorem scanDelim_sublist (oc cc : Char) (cs : List Char) (d : Nat)
    (acc : List Char) (ir : List Char × List Char)
    (h : scanDelim oc cc cs d acc = some ir) : List.Sublist ir.2 cs := by
  induction cs generalizing d acc with
  | nil => simp [scanDelim] at h
  | cons c rest ih =>
      unfold scanDelim at h
      split at h
      · split at h
        · cases h
          exact (List.sublist_cons_self c rest)
        · exact (ih _ _ h).cons c
      · split at h
        · exact (ih _ _ h).cons c
        · exact (ih _ _ h).cons c

/-- A list that extends to a sublist by one head element is itself a
sublist. -/
theorem sublist_of_cons_sublist {a : Char} {l cs : List Char}
    (h : List.Sublist (a :: l) cs) : List.Sublist l cs :=
  (List.sublist_cons_self a l).trans h

/-- The input remaining after the width parse is a sublist of the input. -/
theorem parseWidths_sublist (cs : List Char) :
    List.Sublist (parseWidths cs).2 cs := by
  simp only [parseWidths]
  split
  case _ r2 heq =>
    have hr2 : List.Sublist r2 cs := sublist_of_cons_sublist (heq ▸ parseNum_sublist 0 cs)
    exact (parseNum_sublist 0 r2).trans hr2
  case _ => exact parseNum_sublist 0 cs

/-- The input remaining after a successfully parsed selector is a sublist
of the selector's input. -/
theorem parseSelector_sublist (base : Element) (cs : List Char)
    (er : Element × List Char) (h : parseSelector base cs = .ok er) :
    List.Sublist er.2 cs := by
  unfold parseSelector at h
  split at h <;> (try split at h) <;> (try cases h) <;>
    first
      | exact List.nil_sublist _
      | exact List.sublist_cons_self _ _
      | exact (List.sublist_cons_self _ _).cons _
      | (rename_i ir heq
         exact (scanDelim_sublist _ _ _ _ _ _ heq).trans (List.sublist_cons_self _ _))

/-- The input remaining after a successfully parsed directive is a sublist
of the directive's input. -/
theorem parseDirective_sublist {cs : List Char} {er : Element × List Char}
    (h : parseDirective cs = .ok er) : List.Sublist er.2 cs := by
  have h1 := parseFlags_sublist false false cs
  have h2 := parseWidths_sublist (parseFlags false false cs).2.2
  have h3 : parseSelector
      { alignLeft := (parseFlags false false cs).1,
        highlight := (parseFlags false false cs).2.1,
        min_width := (parseWidths (parseFlags false false cs).2.2).1.1,
        max_width := (parseWidths (parseFlags false false cs).2.2).1.2 }
      (parseWidths (parseFlags false false cs).2.2).2 = .ok er := h
  exact (parseSelector_sublist _ _ _ h3).trans (h2.trans h1)

/-- Any fuel exceeding the input length gives the same parse result: the
scan consumes at least one character per step, so the fuel-exhaustion
branch is unreachable. -/
theorem parseElementsGo_fuel (f1 f2 : Nat) (buf : List Char) (acc : List Element)
    (cs : List Char) (h1 : cs.length < f1) (h2 : cs.length < f2) :
    parseElementsGo f1 buf acc cs = parseElementsGo f2 buf acc cs := by
  induction f1 generalizing f2 buf acc cs with
  | zero => omega
  | succ g1 ih =>
      cases cs with
      | nil => cases f2 with | zero => omega | succ g2 => rfl
      | cons c cs =>
          cases f2 with
          | zero => omega
          | succ g2 =>
              simp only [parseElementsGo]
              by_cases hc : c ≠ '%' ∧ c ≠ '\\'
              · simp only [if_pos hc]
                exact ih g2 _ _ _ (by simpa using Nat.lt_of_succ_lt_succ h1)
                  (by simpa using Nat.lt_of_succ_lt_succ h2)
              · simp only [if_neg hc]
                by_cases hb : c = '\\'
                · simp only [if_pos hb]
                  cases cs with
                  | nil => rfl
                  | cons e cs2 =>
                      exact ih g2 _ _ _ (by simp at h1 ⊢; omega)
                        (by simp at h2 ⊢; omega)
                · simp only [if_neg hb]
                  cases hd : parseDirective cs with
                  | error msg => rfl
                  | ok er =>
                      have hlen := (parseDirective_sublist hd).length_le
                      exact ih g2 _ _ _ (by simp at h1 ⊢; omega)
                        (by simp at h2 ⊢; omega)

/-- C9: for every account and every predicate, `display_account` returns
`false` whenever the account's displayed flag is already set, without
consulting children or the predicate — the result is `false` uniformly in
the predicate. -/
theorem C9_display_account_displayed_false (a : Account)
    (p : Option (Account → Bool)) (hx : a.has_xdata = true)
    (hd : a.displayed = true) : display_account a p = false := by
  simp [display_account, hx, hd]

/-- Witness for C9 at a concrete displayed account. -/
theorem C9_witness :
    (Account.node ['A'] true true none []).has_xdata = true ∧
    (Account.node ['A'] true true none []).displayed = true ∧
    display_account (Account.node ['A'] true true none []) none = false :=
  ⟨rfl, rfl, C9_display_account_displayed_false (Account.node ['A'] true true none []) none rfl rfl⟩

/-- C2, divergence: a legitimately compiled field directive such as `%P`
does reach the renderer's `default: assert(false)` branch, because every
field-evaluation case of `format_t::format` is compiled out by `#if 0`;
rendering is not total as the claim states, whatever context is supplied
(including one with every piece absent and one with every piece present). -/
theorem C2_format_field_hits_assertion :
    parse_elements ['%', 'P'] = .ok [{ type := .PAYEE }] ∧
    (∀ d : Details, format [{ type := .PAYEE }] d = none) ∧
    (∀ d : Details, format [{ type := .STRING, chars := ['h', 'i'] }] d =
      some ['h', 'i']) :=
  ⟨rfl, fun _ => rfl, fun _ => rfl⟩

/-- C4, divergence: as compiled, the child-comparison loop of
`disp_subaccounts_p` is disabled, so for every account and predicate no
child is ever nominated and no aggregate display is forced; consequently
`display_account` reduces to the displayed-flag and predicate gate alone,
never returning the claimed child-vs-parent aggregation results. -/
theorem C4_disp_subaccounts_degenerate :
    (∀ (a : Account) (p : Option (Account → Bool)),
      disp_subaccounts_p a p = (false, none)) ∧
    (∀ (a : Account) (p : Option (Account → Bool)),
      display_account a p =
        (!(a.has_xdata && a.displayed) &&
          (match p with
           | none => true
           | some f => f a))) := by
  refine ⟨fun a p => rfl, fun a p => ?_⟩
  by_cases h : a.has_xdata && a.displayed
  · simp [display_account, h]
  · simp [display_account, h, disp_subaccounts_p]

/-- C7: the constructor split on the `%/` marker behaves as claimed (the
part of the claim the compiled code implements), but the per-transaction
visitor `format_transactions::operator()` is disabled by `#if 0`, so no
incoming transaction is rendered, marked displayed, or recorded as
last-seen: the step is the identity on the grouper state. -/
theorem C7_format_transactions_step_noop :
    (format_transactions_init ['a', '%', '/', 'b']).first_line_format = ['a'] ∧
    (format_transactions_init ['a', '%', '/', 'b']).next_lines_format = ['b'] ∧
    (format_transactions_init ['a', 'b']).first_line_format = ['a', 'b'] ∧
    (format_transactions_init ['a', 'b']).next_lines_format = ['a', 'b'] ∧
    (∀ (st : FormatTransactions) (x : Transaction),
      format_transactions_step st x = st) :=
  ⟨rfl, rfl, rfl, rfl, fun _ _ => rfl⟩

/-- C8, counterexample: at `"abcdefghij"` and width 4 the middle truncation
yields `"a..j"`: the dots overwrite the copied characters, so the result
does not keep the first `width/2` characters (its 2-character front is
`"a."`, not `"ab"`), nor is `".."` inserted between the kept halves
(which would give `"ab..ij"`). -/
theorem C8_counterexample :
    truncate .TRUNCATE_MIDDLE 2 ("abcdefghij".toList) 4 false = "a..j".toList ∧
    ("a..j".toList).take 2 ≠ ("abcdefghij".toList).take 2 ∧
    "a..j".toList ≠ "ab..ij".toList := by
  refine ⟨by decide, by decide, by decide⟩

/-- C8, amended: under TRUNCATE_MIDDLE, for a string longer than the width
`w ≥ 2`, truncate keeps the first `w/2 - 1` and the last `w - w/2 - 1`
characters and writes `".."` over the two positions at the midpoint
(`buf[w/2 - 1]` and `buf[w/2]`). -/
theorem C8_truncate_middle (ab : Nat) (isp : Bool) (s : List Char) (w : Nat)
    (h2 : 2 ≤ w) (hlen : w < s.length) (hmod : s.length < UINT_MOD) :
    truncate .TRUNCATE_MIDDLE ab s w isp =
      s.take (w / 2 - 1) ++ '.' :: '.' :: s.drop (s.length - (w - w / 2) + 1) := by
  have hmodeq : s.length % UINT_MOD = s.length := Nat.mod_eq_of_lt hmod
  have ht1 : (s.take (w / 2)).length = w / 2 := by
    rw [List.length_take]; omega
  have hs1 : (s.take (w / 2)).set (w / 2 - 1) '.' = s.take (w / 2 - 1) ++ ['.'] := by
    rw [List.set_eq_take_cons_drop _ (by rw [ht1]; omega)]
    rw [List.take_take]
    have hmin : min (w / 2 - 1) (w / 2) = w / 2 - 1 := by omega
    rw [hmin]
    have he : w / 2 - 1 + 1 = w / 2 := by omega
    rw [he]
    rw [List.drop_eq_nil_of_le (by rw [List.length_take]; omega)]
  have hs2 : (s.drop (s.length - (w / 2 + w % 2))).set 0 '.' =
      '.' :: s.drop (s.length - (w - w / 2) + 1) := by
    rw [List.set_eq_take_cons_drop _ (by rw [List.length_drop]; omega)]
    rw [List.take_zero, List.nil_append, List.drop_drop]
    have hidx2 : s.length - (w / 2 + w % 2) + 1 = s.length - (w - w / 2) + 1 := by
      omega
    rw [hidx2]
  simp only [truncate, hmodeq]
  rw [if_neg (by omega)]
  rw [List.set_append_left _ _ (by rw [ht1]; omega)]
  rw [List.set_append_right _ _ (by rw [List.length_set, List.length_take]; omega)]
  have hix : w / 2 - ((s.take (w / 2)).set (w / 2 - 1) '.').length = 0 := by
    rw [List.length_set, List.length_take]; omega
  rw [hix, hs1, hs2]
  simp

/-- C1, counterexample: under the default ABBREVIATE policy with
`is_path = true`, abbreviation can shorten the text below the width with
no truncation path restoring it: `truncate("Verylongsegment:x", 16, true)`
returns `"Ve:x"` of length 4, not the claimed `min(17, 16) = 16`. -/
theorem C1_counterexample :
    truncate .ABBREVIATE 2 ("Verylongsegment:x".toList) 16 true = "Ve:x".toList ∧
    ("Ve:x".toList).length ≠ min ("Verylongsegment:x".toList).length 16 := by
  refine ⟨by decide, by decide⟩

/-- C1, amended: for `2 ≤ w < 4095` and a machine-representable length,
truncate is the identity when the text fits; it returns exactly
`min(len, w)` characters under TRUNCATE_LEADING, TRUNCATE_MIDDLE,
TRUNCATE_TRAILING, and under ABBREVIATE with `is_path = false`; under
ABBREVIATE with `is_path = true` the result's length is at most
`min(len, w)` and can fall short of it. -/
theorem C1_truncate_length (style : ElisionStyle) (ab : Nat) (s : List Char)
    (w : Nat) (isp : Bool) (h2 : 2 ≤ w) (h4095 : w < 4095)
    (hmod : s.length < UINT_MOD) :
    (s.length ≤ w → truncate style ab s w isp = s) ∧
    (¬(style = .ABBREVIATE ∧ isp = true) →
      (truncate style ab s w isp).length = min s.length w) ∧
    (truncate style ab s w isp).length ≤ min s.length w := by
  have hmodeq : s.length % UINT_MOD = s.length := Nat.mod_eq_of_lt hmod
  by_cases hle : s.length ≤ w
  · refine ⟨fun _ => by simp [truncate, hmodeq, hle], ?_, ?_⟩
    · intro _
      simp only [truncate, hmodeq, if_pos hle]
      omega
    · simp only [truncate, hmodeq, if_pos hle]
      omega
  · have hgt : w < s.length := by omega
    have hlength : ∀ _ : ¬(style = .ABBREVIATE ∧ isp = true),
        (truncate style ab s w isp).length = min s.length w := by
      intro hns
      cases style with
      | TRUNCATE_LEADING =>
          simp only [truncate, hmodeq, if_neg hle, dotDot]
          simp only [List.length_cons, List.length_drop]
          omega
      | TRUNCATE_MIDDLE =>
          simp only [truncate, hmodeq, if_neg hle, List.length_set,
            List.length_append, List.length_take, List.length_drop]
          omega
      | TRUNCATE_TRAILING =>
          simp only [truncate, hmodeq, if_neg hle, List.length_append,
            List.length_take, List.length_cons, List.length_nil]
          omega
      | ABBREVIATE =>
          have hf : isp = false := by
            cases isp
            · rfl
            · exact absurd ⟨rfl, rfl⟩ hns
          subst hf
          simp only [truncate, hmodeq, if_neg hle, Bool.false_eq_true, if_false,
            List.length_append, List.length_take, List.length_cons, List.length_nil]
          omega
    refine ⟨fun h => absurd h hle, hlength, ?_⟩
    by_cases habb : style = .ABBREVIATE ∧ isp = true
    · obtain ⟨hst, hip⟩ := habb
      subst hst
      subst hip
      simp only [truncate, hmodeq, if_neg hle, eq_self_iff_true, if_true]
      by_cases hb : (abbrevParts ab w (s.splitOn ':') ([], s.length)).2 > w
      · rw [if_pos hb]
        simp only [dotDot, List.length_cons, List.length_drop]
        omega
      · rw [if_neg hb]
        simp only [List.length_take]
        omega
    · rw [hlength habb]

/-- Witness for C1 at the spec's own trailing-truncation example. -/
theorem C1_witness :
    (2 ≤ 8 ∧ 8 < 4095 ∧ ("Supermarket".toList).length < UINT_MOD) ∧
    (("Supermarket".toList).length ≤ 8 →
      truncate .TRUNCATE_TRAILING 2 ("Supermarket".toList) 8 false =
        "Supermarket".toList) ∧
    (¬(ElisionStyle.TRUNCATE_TRAILING = .ABBREVIATE ∧ false = true) →
      (truncate .TRUNCATE_TRAILING 2 ("Supermarket".toList) 8 false).length =
        min ("Supermarket".toList).length 8) ∧
    (truncate .TRUNCATE_TRAILING 2 ("Supermarket".toList) 8 false).length ≤
      min ("Supermarket".toList).length 8 := by
  refine ⟨⟨by decide, by decide, by decide⟩, ?_⟩
  exact C1_truncate_length .TRUNCATE_TRAILING 2 ("Supermarket".toList) 8 false
    (by decide) (by decide) (by decide)

/-- Witness for C8 at `"abcdefghij"` and width 4. -/
theorem C8_witness :
    (2 ≤ 4 ∧ 4 < ("abcdefghij".toList).length ∧
      ("abcdefghij".toList).length < UINT_MOD) ∧
    truncate .TRUNCATE_MIDDLE 2 ("abcdefghij".toList) 4 false = "a..j".toList := by
  refine ⟨⟨by decide, by decide, by decide⟩, ?_⟩
  have h := C8_truncate_middle 2 false ("abcdefghij".toList) 4 (by decide)
    (by decide) (by decide)
  exact h.trans (by decide)

/-- Joining with a separator distributes over a cons with a nonempty tail. -/
theorem intercalate_cons_ne_nil (sep a : List Char) {l : List (List Char)}
    (h : l ≠ []) :
    List.intercalate sep (a :: l) = a ++ sep ++ List.intercalate sep l := by
  cases l with
  | nil => exact absurd rfl h
  | cons b t =>
      simp [List.intercalate, List.intersperse]

/-- Joining with a separator distributes over appending a final segment. -/
theorem intercalate_snoc_ne_nil (sep x : List Char) :
    ∀ (l : List (List Char)), l ≠ [] →
      List.intercalate sep (l ++ [x]) = List.intercalate sep l ++ sep ++ x := by
  intro l
  induction l with
  | nil => intro h; exact absurd rfl h
  | cons b t ih =>
      intro _
      cases t with
      | nil => simp [List.intercalate, List.intersperse]
      | cons c u =>
          rw [List.cons_append, intercalate_cons_ne_nil sep b (by simp),
            intercalate_cons_ne_nil sep b (by simp), ih (by simp)]
          simp [List.append_assoc]

/-- Accumulator form of the `partial_account_name` loop: once the
accumulated name is nonempty, the loop produces the joined names of the
walked nodes followed by a separator and the accumulator. -/
theorem panLoop_acc : ∀ (n : Nat) (a : Account), depth a = n →
    ∀ nm : List Char, nm ≠ [] →
    panLoop a nm =
      (if (((nonRootChain a).takeWhile fun x =>
            !(x.has_xdata && x.displayed)).map Account.name) = []
       then nm
       else List.intercalate [':']
          ((((nonRootChain a).takeWhile fun x =>
            !(x.has_xdata && x.displayed)).map Account.name).reverse) ++
          ':' :: nm) := by
  intro n
  induction n with
  | zero =>
      intro a hd nm hnm
      cases a with
      | node nm0 hx df pa ch =>
          cases pa with
          | none => simp [panLoop, nonRootChain]
          | some p => simp [depth] at hd
  | succ k ih =>
      intro a hd nm hnm
      cases a with
      | node nm0 hx df pa ch =>
          cases pa with
          | none => simp [panLoop, nonRootChain]
          | some p =>
              have hdp : depth p = k := by
                simp [depth] at hd
                omega
              cases hb : hx && df with
              | true =>
                  have hstop : (!((Account.node nm0 hx df (some p) ch).has_xdata &&
                      (Account.node nm0 hx df (some p) ch).displayed)) = false := by
                    simp [Account.has_xdata, Account.displayed, hb]
                  simp only [panLoop, hb, eq_self_iff_true, if_true, nonRootChain,
                    List.takeWhile_cons, hstop, Bool.false_eq_true, if_false,
                    List.map_nil]
              | false =>
                  have hkeep : (!((Account.node nm0 hx df (some p) ch).has_xdata &&
                      (Account.node nm0 hx df (some p) ch).displayed)) = true := by
                    simp [Account.has_xdata, Account.displayed, hb]
                  simp only [panLoop, hb, Bool.false_eq_true, if_false, if_neg hnm]
                  rw [ih p hdp (nm0 ++ ':' :: nm) (by simp)]
                  simp only [nonRootChain, List.takeWhile_cons, hkeep, if_true,
                    List.map_cons]
                  by_cases hvp : (((nonRootChain p).takeWhile fun x =>
                      !(x.has_xdata && x.displayed)).map Account.name) = []
                  · rw [if_pos hvp, hvp]
                    rw [if_neg (by simp)]
                    simp [List.intercalate, List.intersperse, Account.name]
                  · rw [if_neg hvp, if_neg (by simp)]
                    simp only [List.reverse_cons, Account.name]
                    rw [intercalate_snoc_ne_nil [':'] nm0 _ (by simpa [List.reverse_eq_nil_iff] using hvp)]
                    simp [List.append_assoc]

/-- C10: `partial_account_name` returns the `':'`-joined names of the node
and its proper ancestors, stopping before the first displayed node and
never including the root — provided the first walked node's name is
nonempty (amended; the all-names-joined reading fails on empty names,
see the counterexample). -/
theorem C10_partial_account_name (a : Account)
    (h : (((nonRootChain a).takeWhile fun x =>
        !(x.has_xdata && x.displayed)).map Account.name).head? ≠ some []) :
    partial_account_name a = partialNameSpec a := by
  cases a with
  | node nm0 hx df pa ch =>
      cases pa with
      | none =>
          simp [partial_account_name, panLoop, partialNameSpec, nonRootChain,
            List.intercalate, List.intersperse]
      | some p =>
          cases hb : hx && df with
          | true =>
              have hstop : (!((Account.node nm0 hx df (some p) ch).has_xdata &&
                  (Account.node nm0 hx df (some p) ch).displayed)) = false := by
                simp [Account.has_xdata, Account.displayed, hb]
              simp only [partial_account_name, panLoop, hb, eq_self_iff_true,
                if_true, partialNameSpec, nonRootChain, List.takeWhile_cons,
                hstop, Bool.false_eq_true, if_false, List.map_nil,
                List.reverse_nil]
              simp [List.intercalate]
          | false =>
              have hkeep : (!((Account.node nm0 hx df (some p) ch).has_xdata &&
                  (Account.node nm0 hx df (some p) ch).displayed)) = true := by
                simp [Account.has_xdata, Account.displayed, hb]
              have hnm0 : nm0 ≠ [] := by
                simp only [nonRootChain, List.takeWhile_cons, hkeep, if_true,
                  List.map_cons, List.head?, Account.name] at h
                intro hcon
                exact h (by rw [hcon])
              simp only [partial_account_name, panLoop, hb, Bool.false_eq_true,
                if_false, eq_self_iff_true, if_true]
              rw [panLoop_acc (depth p) p rfl nm0 hnm0]
              unfold partialNameSpec
              simp only [nonRootChain, List.takeWhile_cons, hkeep, if_true,
                List.map_cons, List.reverse_cons, Account.name]
              by_cases hvp : (((nonRootChain p).takeWhile fun x =>
                  !(x.has_xdata && x.displayed)).map Account.name) = []
              · rw [if_pos hvp, hvp]
                simp [List.intercalate, List.intersperse]
              · rw [if_neg hvp]
                rw [intercalate_snoc_ne_nil [':'] nm0 _
                  (by simpa [List.reverse_eq_nil_iff] using hvp)]
                simp [List.append_assoc]

/-- C10, counterexample: a child with an empty name under parent `"x"`:
the walk produces `"x"`, while the claimed join of the walked names
(`["", "x"]`, ancestor first) is `"x:"`. -/
theorem C10_counterexample :
    partial_account_name
        (.node [] false false
          (some (.node ['x'] false false
            (some (.node [] false false none [])) [])) []) = ['x'] ∧
    partialNameSpec
        (.node [] false false
          (some (.node ['x'] false false
            (some (.node [] false false none [])) [])) []) = ['x', ':'] ∧
    (['x'] : List Char) ≠ ['x', ':'] := by
  refine ⟨by decide, ?_, by decide⟩
  decide

/-- Witness for C10 on the chain `Assets:Current:Checking` below the root. -/
theorem C10_witness :
    (((nonRootChain
        (.node "Checking".toList false false
          (some (.node "Current".toList false false
            (some (.node "Assets".toList false false
              (some (.node [] false false none [])) [])) [])) [])).takeWhile fun x =>
        !(x.has_xdata && x.displayed)).map Account.name).head? ≠ some [] ∧
    partial_account_name
        (.node "Checking".toList false false
          (some (.node "Current".toList false false
            (some (.node "Assets".toList false false
              (some (.node [] false false none [])) [])) [])) []) =
      partialNameSpec
        (.node "Checking".toList false false
          (some (.node "Current".toList false false
            (some (.node "Assets".toList false false
              (some (.node [] false false none [])) [])) [])) []) ∧
    partial_account_name
        (.node "Checking".toList false false
          (some (.node "Current".toList false false
            (some (.node "Assets".toList false false
              (some (.node [] false false none [])) [])) [])) []) =
      "Assets:Current:Checking".toList := by
  refine ⟨by decide, C10_partial_account_name _ (by decide), by decide⟩

/-- Decimal digit characters parse back to their value and are not flag,
dot or control characters. -/
theorem digit_char_spec (n : Nat) (h : n < 10) :
    (Char.ofNat (48 + n)).isDigit = true ∧ (Char.ofNat (48 + n)).toNat - 48 = n ∧
    Char.ofNat (48 + n) ≠ '-' ∧ Char.ofNat (48 + n) ≠ '!' ∧
    Char.ofNat (48 + n) ≠ '.' := by
  interval_cases n <;> exact ⟨by decide, by decide, by decide, by decide, by decide⟩

/-- One digit step of the digit-run parser. -/
theorem parseNum_cons_digit (a : Nat) (c : Char) (rest : List Char)
    (h : c.isDigit = true) :
    parseNum a (c :: rest) = parseNum (a * 10 + (c.toNat - 48)) rest := by
  conv_lhs => unfold parseNum
  rw [if_pos h]

/-- The digit-run parser stops at a non-digit character. -/
theorem parseNum_cons_nondigit (a : Nat) (c : Char) (rest : List Char)
    (h : c.isDigit = false) :
    parseNum a (c :: rest) = (a, c :: rest) := by
  conv_lhs => unfold parseNum
  rw [if_neg (by simp [h])]

/-- The digit run printed by `natDigitsAux` parses back to its value,
accumulating into `num = num * 10 + digit`. -/
theorem parseNum_natDigitsAux : ∀ (fuel n : Nat), n < fuel → ∀ (a : Nat) (rest : List Char),
    parseNum a (natDigitsAux fuel n ++ rest) =
      parseNum (a * 10 ^ (natDigitsAux fuel n).length + n) rest := by
  intro fuel
  induction fuel with
  | zero => omega
  | succ f ih =>
      intro n hn a rest
      by_cases h10 : n < 10
      · simp only [natDigitsAux, if_pos h10, List.singleton_append,
          List.length_cons, List.length_nil]
        obtain ⟨hd, hv, _⟩ := digit_char_spec n h10
        rw [parseNum_cons_digit _ _ _ hd, hv]
        norm_num
      · have hdiv : n / 10 < f := by omega
        simp only [natDigitsAux, if_neg h10]
        rw [List.append_assoc, List.singleton_append]
        rw [ih (n / 10) hdiv a ((Char.ofNat (48 + n % 10)) :: rest)]
        obtain ⟨hd, hv, _⟩ := digit_char_spec (n % 10) (by omega)
        rw [parseNum_cons_digit _ _ _ hd, hv]
        rw [List.length_append, List.length_cons, List.length_nil]
        have h10' : 10 * (n / 10) + n % 10 = n := Nat.div_add_mod n 10
        have : (a * 10 ^ (natDigitsAux f (n / 10)).length + n / 10) * 10 + n % 10 =
            a * 10 ^ ((natDigitsAux f (n / 10)).length + 1) + n := by
          rw [pow_succ]
          calc (a * 10 ^ (natDigitsAux f (n / 10)).length + n / 10) * 10 + n % 10
              = a * (10 ^ (natDigitsAux f (n / 10)).length * 10) +
                (10 * (n / 10) + n % 10) := by ring
            _ = a * (10 ^ (natDigitsAux f (n / 10)).length * 10) + n := by rw [h10']
        rw [this]

/-- The decimal print of `n` parses back to `n`. -/
theorem parseNum_natDigits (n : Nat) (a : Nat) (rest : List Char) :
    parseNum a (natDigits n ++ rest) =
      parseNum (a * 10 ^ (natDigits n).length + n) rest :=
  parseNum_natDigitsAux (n + 1) n (by omega) a rest

/-- Every character printed by `natDigitsAux` is a decimal digit. -/
theorem natDigitsAux_digits : ∀ (fuel n : Nat), ∀ c ∈ natDigitsAux fuel n,
    c.isDigit = true := by
  intro fuel
  induction fuel with
  | zero => intro n c hc; simp [natDigitsAux] at hc
  | succ f ih =>
      intro n c hc
      by_cases h10 : n < 10
      · simp only [natDigitsAux, if_pos h10, List.mem_singleton] at hc
        subst hc
        exact (digit_char_spec n h10).1
      · simp only [natDigitsAux, if_neg h10, List.mem_append,
          List.mem_singleton] at hc
        rcases hc with hc | hc
        · exact ih (n / 10) c hc
        · subst hc
          exact (digit_char_spec (n % 10) (by omega)).1

/-- The decimal print of a number is never empty. -/
theorem natDigits_ne_nil (n : Nat) : natDigits n ≠ [] := by
  unfold natDigits natDigitsAux
  by_cases h10 : n < 10 <;> simp [h10]

/-- A digit character is not a flag marker nor the width dot. -/
theorem digit_not_flag {c : Char} (h : c.isDigit = true) :
    c ≠ '-' ∧ c ≠ '!' ∧ c ≠ '.' := by
  refine ⟨?_, ?_, ?_⟩ <;> (intro hc; subst hc; simp [Char.isDigit] at h)

/-- The flag run stops at any character that is neither `-` nor `!`. -/
theorem parseFlags_stop (l h : Bool) (c : Char) (rest : List Char)
    (h1 : c ≠ '-') (h2 : c ≠ '!') :
    parseFlags l h (c :: rest) = (l, h, c :: rest) := by
  conv_lhs => unfold parseFlags
  rw [if_neg h1, if_neg h2]

/-- A format string consisting of `%` and one full directive parses to
exactly that directive. -/
theorem parse_single_directive (X : List Char) (elem : Element)
    (h : parseDirective X = .ok (elem, [])) :
    parse_elements ('%' :: X) = .ok [elem] := by
  unfold parse_elements
  simp only [List.length_cons]
  unfold parseElementsGo
  rw [if_neg (by simp)]
  rw [if_neg (by decide : ¬('%' : Char) = '\\')]
  rw [h]
  unfold parseElementsGo
  simp [flushString]

/-- Width parse of a `.`-prefixed max-width with no min-width: both widths
become the max-width. -/
theorem C6_directive_dot (M : Nat) :
    parseDirective ('.' :: (natDigits M ++ ['A'])) =
      .ok ({ type := .ACCOUNT_FULLNAME, min_width := M, max_width := M }, []) := by
  have hA : ('A' : Char).isDigit = false := by decide
  have hdot : ('.' : Char).isDigit = false := by decide
  simp only [parseDirective]
  rw [parseFlags_stop _ _ _ _ (by decide) (by decide)]
  simp only [parseWidths]
  rw [parseNum_cons_nondigit _ _ _ hdot]
  simp only []
  rw [parseNum_natDigits M 0 ['A'], zero_mul, zero_add]
  rw [parseNum_cons_nondigit _ _ _ hA]
  simp only [if_pos rfl]
  rfl

/-- Width parse with a nonzero explicit min-width: the min-width is kept. -/
theorem C6_directive_min (m M : Nat) (hm : 0 < m) :
    parseDirective (natDigits m ++ '.' :: (natDigits M ++ ['A'])) =
      .ok ({ type := .ACCOUNT_FULLNAME, min_width := m, max_width := M }, []) := by
  have hA : ('A' : Char).isDigit = false := by decide
  have hdot : ('.' : Char).isDigit = false := by decide
  obtain ⟨d, ds, hds⟩ : ∃ d ds, natDigits m = d :: ds := by
    cases h : natDigits m with
    | nil => exact absurd h (natDigits_ne_nil m)
    | cons d ds => exact ⟨d, ds, rfl⟩
  have hd : d.isDigit = true := by
    refine natDigitsAux_digits (m + 1) m d ?_
    unfold natDigits at hds
    rw [hds]
    exact List.mem_cons_self _ _
  obtain ⟨hne1, hne2, _⟩ := digit_not_flag hd
  simp only [parseDirective]
  rw [hds, List.cons_append, parseFlags_stop _ _ _ _ hne1 hne2,
    ← List.cons_append, ← hds]
  simp only [parseWidths]
  rw [parseNum_natDigits m 0 ('.' :: (natDigits M ++ ['A'])), zero_mul, zero_add]
  rw [parseNum_cons_nondigit _ _ _ hdot]
  simp only []
  rw [parseNum_natDigits M 0 ['A'], zero_mul, zero_add]
  rw [parseNum_cons_nondigit _ _ _ hA]
  rw [if_neg (by omega)]
  rfl

/-- Width parse with an explicit `0` min-width: the zero is
indistinguishable from an absent min-width and is replaced by the
max-width. -/
theorem C6_directive_zero (M : Nat) :
    parseDirective ('0' :: '.' :: (natDigits M ++ ['A'])) =
      .ok ({ type := .ACCOUNT_FULLNAME, min_width := M, max_width := M }, []) := by
  have hA : ('A' : Char).isDigit = false := by decide
  have hdot : ('.' : Char).isDigit = false := by decide
  simp only [parseDirective]
  rw [parseFlags_stop _ _ _ _ (by decide) (by decide)]
  simp only [parseWidths]
  rw [parseNum_cons_digit _ _ _ (by decide)]
  rw [(by decide : (0 : Nat) * 10 + (('0' : Char).toNat - 48) = 0)]
  rw [parseNum_cons_nondigit _ _ _ hdot]
  simp only []
  rw [parseNum_natDigits M 0 ['A'], zero_mul, zero_add]
  rw [parseNum_cons_nondigit _ _ _ hA]
  simp only [if_pos rfl]
  rfl

/-- C6, amended: a directive with a `.`-prefixed max-width and an absent
min-width compiles with min-width equal to the max-width, and so does one
whose min-width is explicitly written `0`; a nonzero explicit min-width
is kept as written. -/
theorem C6_min_width_defaulting (m M : Nat) (hm : 0 < m) :
    parse_elements ('%' :: '.' :: (natDigits M ++ ['A'])) =
      .ok [{ type := .ACCOUNT_FULLNAME, min_width := M, max_width := M }] ∧
    parse_elements ('%' :: (natDigits m ++ '.' :: (natDigits M ++ ['A']))) =
      .ok [{ type := .ACCOUNT_FULLNAME, min_width := m, max_width := M }] ∧
    parse_elements ('%' :: '0' :: '.' :: (natDigits M ++ ['A'])) =
      .ok [{ type := .ACCOUNT_FULLNAME, min_width := M, max_width := M }] :=
  ⟨parse_single_directive _ _ (C6_directive_dot M),
   parse_single_directive _ _ (C6_directive_min m M hm),
   parse_single_directive _ _ (C6_directive_zero M)⟩

/-- C6, counterexample: `"%0.10A"` gives min-width explicitly as `0`, yet
the compiled directive's min-width is 10, not the written 0. -/
theorem C6_counterexample :
    parse_elements ("%0.10A".toList) =
      .ok [{ type := .ACCOUNT_FULLNAME, min_width := 10, max_width := 10 }] ∧
    (10 : Nat) ≠ 0 := by
  refine ⟨by decide, by decide⟩

/-- Witness for C6 at min-width 5 and max-width 10. -/
theorem C6_witness :
    (0 < 5) ∧
    parse_elements ('%' :: (natDigits 5 ++ '.' :: (natDigits 10 ++ ['A']))) =
      .ok [{ type := .ACCOUNT_FULLNAME, min_width := 5, max_width := 10 }] ∧
    parse_elements ('%' :: '.' :: (natDigits 10 ++ ['A'])) =
      .ok [{ type := .ACCOUNT_FULLNAME, min_width := 10, max_width := 10 }] :=
  ⟨by decide, (C6_min_width_defaulting 5 10 (by decide)).2.1,
   (C6_min_width_defaulting 5 10 (by decide)).1⟩

/-- Every selector-level compile error carries one of the two
missing-delimiter messages. -/
theorem parseSelector_error (base : Element) (cs : List Char) (e : String)
    (h : parseSelector base cs = .error e) :
    e = "Missing ')'" ∨ e = "Missing ']'" := by
  unfold parseSelector at h
  split at h <;> (try split at h) <;> cases h <;>
    first
      | exact Or.inl rfl
      | exact Or.inr rfl

/-- A selector-level compile error requires an open delimiter in the
input. -/
theorem parseSelector_error_mem (base : Element) (cs : List Char) (e : String)
    (h : parseSelector base cs = .error e) : '(' ∈ cs ∨ '[' ∈ cs := by
  unfold parseSelector at h
  split at h <;> (try split at h) <;> cases h <;>
    first
      | exact Or.inl (List.mem_cons_self _ _)
      | exact Or.inr (List.mem_cons_self _ _)

/-- A directive-level compile error carries a missing-delimiter message
and requires an open delimiter in the input. -/
theorem parseDirective_error {cs : List Char} {e : String}
    (h : parseDirective cs = .error e) :
    (e = "Missing ')'" ∨ e = "Missing ']'") ∧ ('(' ∈ cs ∨ '[' ∈ cs) := by
  have h3 : parseSelector
      { alignLeft := (parseFlags false false cs).1,
        highlight := (parseFlags false false cs).2.1,
        min_width := (parseWidths (parseFlags false false cs).2.2).1.1,
        max_width := (parseWidths (parseFlags false false cs).2.2).1.2 }
      (parseWidths (parseFlags false false cs).2.2).2 = .error e := h
  refine ⟨parseSelector_error _ _ _ h3, ?_⟩
  have hmem := parseSelector_error_mem _ _ _ h3
  have hsub : List.Sublist (parseWidths (parseFlags false false cs).2.2).2 cs :=
    (parseWidths_sublist _).trans (parseFlags_sublist false false cs)
  rcases hmem with hm | hm
  · exact Or.inl (hsub.mem hm)
  · exact Or.inr (hsub.mem hm)

/-- Any compile error of the scan loop carries a missing-delimiter
message and requires an open delimiter in the input. -/
theorem parseElementsGo_error : ∀ (fuel : Nat) (buf : List Char)
    (acc : List Element) (cs : List Char) (e : String),
    parseElementsGo fuel buf acc cs = .error e →
    (e = "Missing ')'" ∨ e = "Missing ']'") ∧ ('(' ∈ cs ∨ '[' ∈ cs) := by
  intro fuel
  induction fuel with
  | zero =>
      intro buf acc cs e h
      cases cs <;> simp [parseElementsGo] at h
  | succ f ih =>
      intro buf acc cs e h
      cases cs with
      | nil => simp [parseElementsGo] at h
      | cons c cs =>
          unfold parseElementsGo at h
          by_cases hc : c ≠ '%' ∧ c ≠ '\\'
          · rw [if_pos hc] at h
            have := ih _ _ _ _ h
            exact ⟨this.1, by
              rcases this.2 with hm | hm
              · exact Or.inl (List.mem_cons_of_mem c hm)
              · exact Or.inr (List.mem_cons_of_mem c hm)⟩
          · rw [if_neg hc] at h
            by_cases hb : c = '\\'
            · rw [if_pos hb] at h
              cases cs with
              | nil => simp at h
              | cons e2 cs2 =>
                  have := ih _ _ _ _ h
                  exact ⟨this.1, by
                    rcases this.2 with hm | hm
                    · exact Or.inl (List.mem_cons_of_mem c
                        (List.mem_cons_of_mem e2 hm))
                    · exact Or.inr (List.mem_cons_of_mem c
                        (List.mem_cons_of_mem e2 hm))⟩
            · rw [if_neg hb] at h
              cases hd : parseDirective cs with
              | error msg =>
                  rw [hd] at h
                  cases h
                  have := parseDirective_error hd
                  exact ⟨this.1, by
                    rcases this.2 with hm | hm
                    · exact Or.inl (List.mem_cons_of_mem c hm)
                    · exact Or.inr (List.mem_cons_of_mem c hm)⟩
              | ok er =>
                  rw [hd] at h
                  have := ih _ _ _ _ h
                  refine ⟨this.1, ?_⟩
                  have hsub := parseDirective_sublist hd
                  rcases this.2 with hm | hm
                  · exact Or.inl (List.mem_cons_of_mem c (hsub.mem hm))
                  · exact Or.inr (List.mem_cons_of_mem c (hsub.mem hm))


/-- A selector over input free of open delimiters always succeeds. -/
theorem parseSelector_ok (base : Element) (cs : List Char)
    (h : ∀ c ∈ cs, c ≠ '(' ∧ c ≠ '[') :
    ∃ er, parseSelector base cs = .ok er := by
  cases hps : parseSelector base cs with
  | ok er => exact ⟨er, rfl⟩
  | error msg =>
      exfalso
      rcases parseSelector_error_mem _ _ _ hps with hm | hm
      · exact (h _ hm).1 rfl
      · exact (h _ hm).2 rfl

/-- A directive over input free of open delimiters always succeeds. -/
theorem parseDirective_ok (cs : List Char)
    (h : ∀ c ∈ cs, c ≠ '(' ∧ c ≠ '[') :
    ∃ er, parseDirective cs = .ok er := by
  cases hps : parseDirective cs with
  | ok er => exact ⟨er, rfl⟩
  | error msg =>
      exfalso
      rcases (parseDirective_error hps).2 with hm | hm
      · exact (h _ hm).1 rfl
      · exact (h _ hm).2 rfl

/-- The scan loop over input free of open delimiters always succeeds. -/
theorem parseElementsGo_ok : ∀ (fuel : Nat) (buf : List Char)
    (acc : List Element) (cs : List Char),
    (∀ c ∈ cs, c ≠ '(' ∧ c ≠ '[') →
    ∃ es, parseElementsGo fuel buf acc cs = .ok es := by
  intro fuel
  induction fuel with
  | zero =>
      intro buf acc cs h
      cases cs <;> exact ⟨_, rfl⟩
  | succ f ih =>
      intro buf acc cs h
      cases cs with
      | nil => exact ⟨_, rfl⟩
      | cons c cs =>
          unfold parseElementsGo
          by_cases hc : c ≠ '%' ∧ c ≠ '\\'
          · rw [if_pos hc]
            exact ih _ _ _ fun x hx => h x (List.mem_cons_of_mem c hx)
          · rw [if_neg hc]
            by_cases hb : c = '\\'
            · rw [if_pos hb]
              cases cs with
              | nil => exact ⟨_, rfl⟩
              | cons e2 cs2 =>
                  exact ih _ _ _ fun x hx => h x
                    (List.mem_cons_of_mem c (List.mem_cons_of_mem e2 hx))
            · rw [if_neg hb]
              obtain ⟨er, her⟩ := parseDirective_ok cs
                fun x hx => h x (List.mem_cons_of_mem c hx)
              rw [her]
              exact ih _ _ _ fun x hx => h x
                (List.mem_cons_of_mem c ((parseDirective_sublist her).mem hx))

/-- A successful selector consumes exactly what the grammar walk says. -/
theorem parseSelector_rest_ok (base : Element) (cs : List Char)
    (er : Element × List Char) (h : parseSelector base cs = .ok er) :
    selectorRest cs = some er.2 := by
  unfold parseSelector at h
  split at h <;> (try split at h) <;> cases h <;>
    first
      | rfl
      | (rename_i heq; simp [selectorRest, heq])

/-- A failing selector is exactly an unmatched delimiter of the grammar
walk. -/
theorem parseSelector_rest_error (base : Element) (cs : List Char)
    (e : String) (h : parseSelector base cs = .error e) :
    selectorRest cs = none := by
  unfold parseSelector at h
  split at h <;> (try split at h) <;> cases h <;>
    (rename_i heq; simp [selectorRest, heq])


/-- A successful directive consumes exactly what the grammar walk says. -/
theorem parseDirective_rest_ok {cs : List Char} {er : Element × List Char}
    (h : parseDirective cs = .ok er) : directiveRest cs = some er.2 := by
  have h3 : parseSelector
      { alignLeft := (parseFlags false false cs).1,
        highlight := (parseFlags false false cs).2.1,
        min_width := (parseWidths (parseFlags false false cs).2.2).1.1,
        max_width := (parseWidths (parseFlags false false cs).2.2).1.2 }
      (parseWidths (parseFlags false false cs).2.2).2 = .ok er := h
  exact parseSelector_rest_ok _ _ _ h3

/-- A failing directive is exactly an unmatched delimiter of the grammar
walk. -/
theorem parseDirective_rest_error {cs : List Char} {e : String}
    (h : parseDirective cs = .error e) : directiveRest cs = none := by
  have h3 : parseSelector
      { alignLeft := (parseFlags false false cs).1,
        highlight := (parseFlags false false cs).2.1,
        min_width := (parseWidths (parseFlags false false cs).2.2).1.1,
        max_width := (parseWidths (parseFlags false false cs).2.2).1.2 }
      (parseWidths (parseFlags false false cs).2.2).2 = .error e := h
  exact parseSelector_rest_error _ _ _ h3

/-- The scan loop errs exactly on the templates whose grammar walk finds
an unmatched delimiter. -/
theorem parseElementsGo_error_iff : ∀ (fuel : Nat) (buf : List Char)
    (acc : List Element) (cs : List Char),
    (∃ e, parseElementsGo fuel buf acc cs = .error e) ↔ unmatchedGo fuel cs = true := by
  intro fuel
  induction fuel with
  | zero =>
      intro buf acc cs
      cases cs <;> simp [parseElementsGo, unmatchedGo]
  | succ f ih =>
      intro buf acc cs
      cases cs with
      | nil => simp [parseElementsGo, unmatchedGo]
      | cons c cs =>
          by_cases hc : c ≠ '%' ∧ c ≠ '\\'
          · rw [show parseElementsGo (f + 1) buf acc (c :: cs) =
                parseElementsGo f (buf ++ [c]) acc cs by
                  conv_lhs => unfold parseElementsGo
                  rw [if_pos hc],
              show unmatchedGo (f + 1) (c :: cs) = unmatchedGo f cs by
                  conv_lhs => unfold unmatchedGo
                  rw [if_pos hc]]
            exact ih _ _ _
          · by_cases hb : c = '\\'
            · cases cs with
              | nil =>
                  rw [show parseElementsGo (f + 1) buf acc [c] =
                      .ok (flushString buf acc ++ [{ type := .STRING }]) by
                        conv_lhs => unfold parseElementsGo
                        rw [if_neg hc, if_pos hb],
                    show unmatchedGo (f + 1) [c] = false by
                        conv_lhs => unfold unmatchedGo
                        rw [if_neg hc, if_pos hb]]
                  simp
              | cons e2 cs2 =>
                  rw [show parseElementsGo (f + 1) buf acc (c :: e2 :: cs2) =
                      parseElementsGo f [] (flushString buf acc ++
                        [{ type := .STRING, chars := escapeChar e2 }]) cs2 by
                        conv_lhs => unfold parseElementsGo
                        rw [if_neg hc, if_pos hb],
                    show unmatchedGo (f + 1) (c :: e2 :: cs2) = unmatchedGo f cs2 by
                        conv_lhs => unfold unmatchedGo
                        rw [if_neg hc, if_pos hb]]
                  exact ih _ _ _
            · have hcp : c = '%' := by
                rcases not_and_or.mp hc with h1 | h1
                · exact not_not.mp h1
                · exact absurd (not_not.mp h1) hb
              subst hcp
              cases hd : parseDirective cs with
              | error msg =>
                  rw [show parseElementsGo (f + 1) buf acc ('%' :: cs) =
                      .error msg by
                        conv_lhs => unfold parseElementsGo
                        rw [if_neg hc, if_neg hb, hd],
                    show unmatchedGo (f + 1) ('%' :: cs) = true by
                        conv_lhs => unfold unmatchedGo
                        rw [if_neg hc, if_neg hb, parseDirective_rest_error hd]]
                  simp
              | ok er =>
                  rw [show parseElementsGo (f + 1) buf acc ('%' :: cs) =
                      parseElementsGo f [] (flushString buf acc ++ [er.1]) er.2 by
                        conv_lhs => unfold parseElementsGo
                        rw [if_neg hc, if_neg hb, hd],
                    show unmatchedGo (f + 1) ('%' :: cs) = unmatchedGo f er.2 by
                        conv_lhs => unfold unmatchedGo
                        rw [if_neg hc, if_neg hb, parseDirective_rest_ok hd]]
                  exact ih _ _ _

/-- C5: `parse_elements` raises its compile error exactly for unmatched
delimiters: an unterminated `%(` fails with the missing-`)` error and an
unterminated `%[` with the missing-`]` error; every error a template can
raise is one of these two; a template errs if and only if its grammar
walk finds an unmatched `%(`/`%[` delimiter, so every other template —
including ones with matched groups or literal parentheses and brackets —
compiles without error. -/
theorem C5_compile_errors_only_unmatched_delims :
    parse_elements ("%(unterminated".toList) = .error "Missing ')'" ∧
    parse_elements ("%[unterminated".toList) = .error "Missing ']'" ∧
    (∀ (fmt : List Char) (e : String), parse_elements fmt = .error e →
      e = "Missing ')'" ∨ e = "Missing ']'") ∧
    (∀ fmt : List Char,
      (∃ e, parse_elements fmt = .error e) ↔ hasUnmatchedDelim fmt = true) ∧
    (∀ fmt : List Char, hasUnmatchedDelim fmt = false →
      ∃ es, parse_elements fmt = .ok es) ∧
    hasUnmatchedDelim ("%(a(b)c)%[d]e".toList) = false ∧
    hasUnmatchedDelim ("a(b".toList) = false ∧
    hasUnmatchedDelim ("a)b(".toList) = false ∧
    parse_elements ("%(a(b)c)%[d]e".toList) =
      .ok [{ type := .VALUE_EXPR, val_expr := "a(b)c".toList },
           { type := .DATE_STRING, chars := ['d'] },
           { type := .STRING, chars := ['e'] }] := by
  refine ⟨by decide, by decide, ?_, ?_, ?_, by decide, by decide, by decide,
    by decide⟩
  · intro fmt e h
    exact (parseElementsGo_error _ _ _ _ _ h).1
  · intro fmt
    exact parseElementsGo_error_iff (fmt.length + 1) [] [] fmt
  · intro fmt hf
    cases hok : parse_elements fmt with
    | ok es => exact ⟨es, rfl⟩
    | error e =>
        have : hasUnmatchedDelim fmt = true :=
          (parseElementsGo_error_iff (fmt.length + 1) [] [] fmt).mp ⟨e, hok⟩
        rw [hf] at this
        cases this

/-- Witness for C5: the error-unmatched equivalence and the
delimiter-containing success guarantee applied at concrete templates. -/
theorem C5_witness :
    hasUnmatchedDelim ("%(x".toList) = true ∧
    parse_elements ("%(x".toList) = .error "Missing ')'" ∧
    (∃ es, parse_elements ("a(b".toList) = .ok es) := by
  refine ⟨?_, by decide, ?_⟩
  · exact (C5_compile_errors_only_unmatched_delims.2.2.2.1
      ("%(x".toList)).mp ⟨"Missing ')'", by decide⟩
  · exact C5_compile_errors_only_unmatched_delims.2.2.2.2.1
      ("a(b".toList) (by decide)

/-- Unsigned subtraction agrees with natural subtraction below the
modulus. -/
theorem usub_eq (a b : Nat) (hba : b ≤ a) (ha : a < UINT_MOD) :
    usub a b = a - b := by
  have hbM : b < UINT_MOD := by omega
  unfold usub
  rw [Nat.mod_eq_of_lt hbM]
  have h1 : a + (UINT_MOD - b) = (a - b) + UINT_MOD := by omega
  rw [h1, Nat.add_mod_right, Nat.mod_eq_of_lt (by omega)]

/-- Joining a single segment is the segment itself. -/
theorem intercalate_singleton (sep a : List Char) :
    List.intercalate sep [a] = a := by
  simp [List.intercalate]

/-- The specified segment walk never empties a nonempty segment list. -/
theorem abbrevSegsSpec_ne_nil (ab w : Nat) (parts : List (List Char)) (L : Nat)
    (h : parts ≠ []) : abbrevSegsSpec ab w parts L ≠ [] := by
  cases parts with
  | nil => exact absurd rfl h
  | cons seg rest =>
      cases rest with
      | nil => simp [abbrevSegsSpec]
      | cons b t =>
          unfold abbrevSegsSpec
          by_cases hl : L > w <;> simp [hl]

/-- The compiled ABBREVIATE loop refines the specified segment walk: when
every segment is at least `abbrevLen` long (so the unsigned accounting
never wraps and matches the true length), the loop returns the join of
the specified walk and its `newlen` counter equals the accumulated
length. -/
theorem abbrevParts_spec (ab w : Nat) : ∀ (parts : List (List Char))
    (res : List Char) (n : Nat),
    (∀ seg ∈ parts, ab ≤ seg.length) →
    n = res.length + (List.intercalate [':'] parts).length →
    n < UINT_MOD →
    abbrevParts ab w parts (res, n) =
      (res ++ List.intercalate [':'] (abbrevSegsSpec ab w parts n),
       res.length + (List.intercalate [':'] (abbrevSegsSpec ab w parts n)).length) := by
  intro parts
  induction parts with
  | nil =>
      intro res n _ hn _
      simp [List.intercalate] at hn
      simp [abbrevParts, abbrevSegsSpec, List.intercalate, hn]
  | cons seg rest ih =>
      intro res n hseg hn hM
      cases rest with
      | nil =>
          rw [intercalate_singleton] at hn
          simp only [abbrevParts, abbrevSegsSpec, intercalate_singleton]
          rw [hn]
      | cons b t =>
          have hbt : (b :: t) ≠ ([] : List (List Char)) := by simp
          rw [intercalate_cons_ne_nil [':'] seg hbt] at hn
          have hablen : ab ≤ seg.length := hseg seg (List.mem_cons_self _ _)
          have hsegrest : ∀ x ∈ b :: t, ab ≤ x.length := fun x hx =>
            hseg x (List.mem_cons_of_mem seg hx)
          simp only [List.length_append, List.length_cons] at hn
          by_cases hnw : n > w
          · -- abbreviated
            have hsegM : seg.length < UINT_MOD := by omega
            have hu1 : usub seg.length ab = seg.length - ab :=
              usub_eq _ _ hablen hsegM
            have hu2 : usub n (seg.length - ab) = n - (seg.length - ab) :=
              usub_eq _ _ (by omega) hM
            have htake : (seg.take ab).length = ab := by
              rw [List.length_take]; omega
            simp only [abbrevParts, if_pos hnw, hu1, hu2]
            have hinv : n - (seg.length - ab) =
                (res ++ seg.take ab ++ [':']).length +
                  (List.intercalate [':'] (b :: t)).length := by
              simp only [List.length_append, htake, List.length_cons,
                List.length_nil] at hn ⊢
              omega
            rw [ih (res ++ seg.take ab ++ [':']) (n - (seg.length - ab)) hsegrest
              hinv (by omega)]
            have hS : abbrevSegsSpec ab w (b :: t) (n - (seg.length - ab)) ≠ [] :=
              abbrevSegsSpec_ne_nil ab w _ _ (by simp)
            simp only [abbrevSegsSpec, if_pos hnw]
            rw [intercalate_cons_ne_nil [':'] (seg.take ab) hS]
            simp [htake, List.append_assoc]
            ring
          · -- kept whole
            simp only [abbrevParts, if_neg hnw]
            have hinv : n = (res ++ seg ++ [':']).length +
                (List.intercalate [':'] (b :: t)).length := by
              simp only [List.length_append, List.length_cons,
                List.length_nil] at hn ⊢
              omega
            rw [ih (res ++ seg ++ [':']) n hsegrest hinv hM]
            have hS : abbrevSegsSpec ab w (b :: t) n ≠ [] :=
              abbrevSegsSpec_ne_nil ab w _ _ (by simp)
            simp only [abbrevSegsSpec, if_neg hnw]
            rw [intercalate_cons_ne_nil [':'] seg hS]
            simp [List.append_assoc]
            ring


/-- C3, amended: under ABBREVIATE with `is_path = true`, provided every
`':'`-separated segment has at least `abbrev_length` characters (and the
length is machine-representable), truncate splits on `':'`, walks left to
right replacing each non-final segment by its first `abbrev_length`
characters only while the accumulated length still exceeds the width,
never abbreviates the final segment, and leading-truncates if the result
still exceeds the width — exactly the claim's algorithm.  (Segments
shorter than `abbrev_length` make the unsigned running-length counter
wrap and diverge from the claimed accounting, see the counterexample.) -/
theorem C3_abbreviate_spec (ab w : Nat) (s : List Char)
    (hseg : ∀ seg ∈ s.splitOn ':', ab ≤ seg.length)
    (hmod : s.length < UINT_MOD) :
    truncate .ABBREVIATE ab s w true = truncateAbbrevSpec ab s w := by
  have hmodeq : s.length % UINT_MOD = s.length := Nat.mod_eq_of_lt hmod
  have hjoin : List.intercalate [':'] (s.splitOn ':') = s :=
    List.intercalate_splitOn s ':'
  by_cases hle : s.length ≤ w
  · simp only [truncate, truncateAbbrevSpec, hmodeq, if_pos hle]
  · simp only [truncate, truncateAbbrevSpec, hmodeq, if_neg hle,
      eq_self_iff_true, if_true]
    have hinit : s.length = ([] : List Char).length +
        (List.intercalate [':'] (s.splitOn ':')).length := by
      rw [hjoin]
      simp
    rw [abbrevParts_spec ab w (s.splitOn ':') [] s.length hseg hinit hmod]
    dsimp only
    simp only [List.nil_append, List.length_nil, zero_add]
    by_cases hJ : (List.intercalate [':']
        (abbrevSegsSpec ab w (s.splitOn ':') s.length)).length > w
    · rw [if_pos hJ, if_pos hJ]
    · rw [if_neg hJ, if_neg hJ, List.take_of_length_le (by omega)]

/-- C3, counterexample: with the 1-character segment `"x"`, the unsigned
update `newlen -= len - abbrev_length` wraps and increases the counter,
so the code abbreviates `"CCCCCC"` even though the accumulated length
(13) no longer exceeds the width: the code yields `"x:BB:CC:y"` where
the claimed walk yields `"x:BB:CCCCCC:y"`. -/
theorem C3_counterexample :
    truncate .ABBREVIATE 2 ("x:BBBBBB:CCCCCC:y".toList) 13 true =
      "x:BB:CC:y".toList ∧
    truncateAbbrevSpec 2 ("x:BBBBBB:CCCCCC:y".toList) 13 =
      "x:BB:CCCCCC:y".toList ∧
    "x:BB:CC:y".toList ≠ "x:BB:CCCCCC:y".toList := by
  refine ⟨by decide, by decide, by decide⟩

/-- Witness for C3 at the spec's own example, width 10: the last segment
`"Checking"` survives unabbreviated. -/
theorem C3_witness :
    (∀ seg ∈ ("Assets:Current:Checking".toList).splitOn ':', 2 ≤ seg.length) ∧
    truncate .ABBREVIATE 2 ("Assets:Current:Checking".toList) 10 true =
      truncateAbbrevSpec 2 ("Assets:Current:Checking".toList) 10 ∧
    truncate .ABBREVIATE 2 ("Assets:Current:Checking".toList) 10 true =
      "..Checking".toList := by
  refine ⟨by decide, ?_, by decide⟩
  exact C3_abbreviate_spec 2 10 ("Assets:Current:Checking".toList) (by decide)
    (by decide)

end Ledger
